import Mathlib

/-!
Verification of the segment-decision and processing-strategy engine of
`cut_with_edl.py` (commercial removal driven by Comskip EDL files).

The Python source is shallowly embedded:
* line-oriented pure helpers (`parse_edl_lines`, `keep_segments_from_cuts`,
  `edl_has_no_commercials`, `parse_txt_metadata`) become pure Lean functions
  over lists of lines; Python floats are modelled by `ℚ`, and Python's
  `float(...)` literal reader is an oracle parameter `pyFloat : String → Option ℚ`
  (the code only ever needs its success/failure on concrete strings);
* the filesystem and the external ffmpeg/ffprobe engine are modelled by an
  environment `Env`; every `subprocess.run` spawn is an oracle call
  `engine : EngCmd → Option ℤ` (`none` models `FileNotFoundError` at spawn,
  `some rc` the exit status), and executions return a result paired with the
  list of observable events (engine spawns, blacklist appends, dry-run plan
  output) in order;
* Python result codes become `PyResult.ret n`; an exception that escapes the
  function is `PyResult.uncaught`.
-/

namespace AutoComskip

/-- Whitespace as Python's `str.strip`/`str.split` see it (the characters
occurring in the repository's data; the model and the source agree on every
ASCII input). -/
def isPySpace (c : Char) : Bool := c.isWhitespace

/-- Python `str.strip()` with no argument: remove leading and trailing
whitespace.  Implemented structurally over the character list so concrete
inputs evaluate inside the kernel. -/
def pyStrip (s : String) : String :=
  String.mk (((s.data.dropWhile isPySpace).reverse.dropWhile isPySpace).reverse)

/-- Python `str.startswith(c)` for a one-character needle. -/
def startsWithChar (c : Char) (s : String) : Bool :=
  match s.data with
  | [] => false
  | d :: _ => d = c

/-- Accumulator loop for Python `str.split()`: collect maximal non-whitespace
runs. -/
def splitWSAux : List Char → List Char → List (List Char)
  | [], acc => if acc = [] then [] else [acc.reverse]
  | c :: cs, acc =>
    if isPySpace c then
      if acc = [] then splitWSAux cs [] else acc.reverse :: splitWSAux cs []
    else splitWSAux cs (c :: acc)

/-- Python `str.split()` with no argument: split on whitespace runs, dropping
empty pieces. -/
def pySplitWS (s : String) : List String :=
  (splitWSAux s.data []).map String.mk

/-- Python `line.split(":", 1)`: the text before the first `:` and the rest
after it, or `none` when the line has no `:`. -/
def splitColonOnce : List Char → Option (List Char × List Char)
  | [] => none
  | c :: cs =>
    if c = ':' then some ([], cs)
    else
      match splitColonOnce cs with
      | none => none
      | some (a, b) => some (c :: a, b)

/-- Python `str.lower()` (agreeing on the sidecars' ASCII keys). -/
def pyLower (s : String) : String :=
  String.mk (s.data.map Char.toLower)

/-- Python `"\n".join(lines)`. -/
def joinLines : List String → String
  | [] => ""
  | [s] => s
  | s :: rest => s ++ "\n" ++ joinLines rest

/-- Removal of trailing whitespace only (Python `str.rstrip()`); used to state
the spec's words "trimmed of trailing whitespace" for comparison against the
source's `str.strip()` (`pyStrip`). -/
def rstripWS (s : String) : String :=
  String.mk ((s.data.reverse.dropWhile isPySpace).reverse)

/-- A file as seen by a reader: absent, present but unreadable (an
`OSError`/`IOError` is raised on open or read), or readable content given as
its list of lines (without trailing newlines). -/
inductive FileRead where
  | absent : FileRead
  | unreadable : FileRead
  | content : List String → FileRead
deriving DecidableEq

/-- One line of the EDL triggers the "has commercials" answer when, after
stripping, it is neither empty nor a `#` comment, splits into at least three
whitespace-separated fields, and its third field is the remove code `"0"`
(`cut_with_edl.py`, lines 22-34). -/
def edl_line_marks_commercial (raw : String) : Bool :=
  let line := pyStrip raw
  if line = "" || startsWithChar '#' line then false
  else
    let parts := pySplitWS line
    decide (3 ≤ parts.length) && (parts.getD 2 "" == "0")

/-- `edl_has_no_commercials` (lines 19-37): scan the file for a remove-record
line; any `OSError`/`IOError` (absent or unreadable file) yields `true`. -/
def edl_has_no_commercials : FileRead → Bool
  | .absent => true
  | .unreadable => true
  | .content lines => ! lines.any edl_line_marks_commercial

/-- `parse_edl_lines` (lines 129-146): strip each line, skip blanks and `#`
comments and lines with fewer than three fields, read the first two fields as
floats through the `pf` oracle (a failed read drops the line silently), and
keep the third field as the opaque action code, preserving order. -/
def parse_edl_lines (pf : String → Option ℚ) (lines : List String) :
    List (ℚ × ℚ × String) :=
  lines.filterMap (fun raw =>
    let line := pyStrip raw
    if line = "" || startsWithChar '#' line then none
    else
      let parts := pySplitWS line
      if parts.length < 3 then none
      else
        match pf (parts.getD 0 ""), pf (parts.getD 1 "") with
        | some s, some e => some (s, e, parts.getD 2 "")
        | _, _ => none)

/-- The loop of `keep_segments_from_cuts` (lines 153-160), with the running
cursor `last_end` made explicit. -/
def keep_segments_go : List (ℚ × ℚ × String) → ℚ → List (ℚ × Option ℚ)
  | [], lastEnd => [(lastEnd, none)]
  | (s, e, action) :: rest, lastEnd =>
    if action = "0" then
      if lastEnd < s then (lastEnd, some s) :: keep_segments_go rest e
      else keep_segments_go rest e
    else keep_segments_go rest lastEnd

/-- `keep_segments_from_cuts` (lines 149-161): invert remove-records into the
complementary keep-segments, starting the cursor at `0` and always appending a
final unbounded segment. -/
def keep_segments_from_cuts (cuts : List (ℚ × ℚ × String)) :
    List (ℚ × Option ℚ) :=
  keep_segments_go cuts 0

/-- The remove-records of a cut list: those whose action is the code `"0"`. -/
def removeRecords (cuts : List (ℚ × ℚ × String)) : List (ℚ × ℚ × String) :=
  cuts.filter (fun c => c.2.2 = "0")

/-- The metadata dictionary built by `parse_txt_metadata`: the four recognized
keys, each absent until assigned. -/
structure PyMeta where
  channel : Option String := none
  date : Option String := none
  recording : Option String := none
  description : Option String := none
deriving DecidableEq

/-- One iteration of the reader loop of `parse_txt_metadata` (lines 174-197).
State: metadata so far, captured description lines, and the
`in_description` flag.  The `:`-containing test and Python's
`line.split(":", 1)` are expressed together through `splitColonOnce`. -/
def parse_txt_step (st : PyMeta × List String × Bool) (line : String) :
    PyMeta × List String × Bool :=
  let meta := st.1
  let descLines := st.2.1
  let inDesc := st.2.2
  if inDesc then (meta, descLines ++ [line], true)
  else
    match splitColonOnce line.data with
    | none => (meta, descLines, false)
    | some (k, rest) =>
      let key := pyLower (pyStrip (String.mk k))
      let value := pyStrip (String.mk rest)
      if key = "description" then
        (meta, (if value = "" then descLines else descLines ++ [value]), true)
      else if key = "channel" then
        ({ meta with channel := some value }, descLines, false)
      else if key = "date" then
        ({ meta with date := some value }, descLines, false)
      else if key = "recording" then
        ({ meta with recording := some value }, descLines, false)
      else (meta, descLines, false)

/-- `parse_txt_metadata` (lines 164-202) on the lines of a readable sidecar
(the file-existence and `OSError` guards of the source wrap this loop and
yield an empty map): run the reader loop, then, when any description lines
were captured, store them joined by line breaks and stripped at both ends
(Python `"\n".join(...).strip()`). -/
def parse_txt_metadata (lines : List String) : PyMeta :=
  let st := lines.foldl parse_txt_step ({}, [], false)
  if st.2.1 = [] then st.1
  else { st.1 with description := some (pyStrip (joinLines st.2.1)) }

/-- The two processing strategies of the spec's Strategy Selector. -/
inductive Strategy where
  | FilterGraph : Strategy
  | SegmentCopy : Strategy
deriving DecidableEq

/-- The method selection of `cut_video` (lines 653-664): compute the file size
in MiB as a float (`ℚ`) and use the concat demuxer (SegmentCopy) iff
`num_segments > 5`, or `file_size_mb > 500`, or
(`file_size_mb > 200` and `num_segments > 3`). -/
def choose_strategy (fileSizeBytes : ℕ) (numSegments : ℕ) : Strategy :=
  let fileSizeMb : ℚ := (fileSizeBytes : ℚ) / (1024 * 1024)
  if 5 < numSegments ∨ 500 < fileSizeMb ∨ (200 < fileSizeMb ∧ 3 < numSegments)
  then .SegmentCopy else .FilterGraph

/-- The external-engine invocations of the program, described by the data that
determines them (option lists such as codec flags, subtitle and metadata
directives are deterministic renderings of this data and are abstracted). -/
inductive EngCmd where
  /-- The single no-cut ffmpeg conversion of `convert_without_cuts`
  (and its retry, on the repaired working copy), keyed by its input path. -/
  | convert : String → EngCmd
  /-- The error-tolerant stream-copy repair pass of `repair_corrupted_file`. -/
  | repairCopy : String → EngCmd
  /-- The `ffprobe` integrity probe of the repaired working copy. -/
  | probe : String → EngCmd
  /-- One stream-copy segment extraction of `cut_video_with_concat_demuxer`:
  input path, segment index, start, and optional end. -/
  | extract : String → ℕ → ℚ → Option ℚ → EngCmd
  /-- The final concat-demuxer re-encode over the manifest of `n` segments. -/
  | concatRun : String → ℕ → EngCmd
  /-- The single filter-graph invocation of `cut_video_with_filter_complex`,
  keyed by input path and the keep-segments the graph trims. -/
  | filterRun : String → List (ℚ × Option ℚ) → EngCmd
deriving DecidableEq

/-- Observable events of one conversion request, in program order. -/
inductive Event where
  /-- An attempt to spawn the external engine with the given command. -/
  | run : EngCmd → Event
  /-- `add_to_blacklist`: the given basename is appended to the deny-list. -/
  | blacklistAdd : String → Event
  /-- The dry-run plan output: `Would process n segments`. -/
  | planPrinted : ℕ → Event
deriving DecidableEq

/-- The outcome of a Python function: a returned result code, or an exception
that escapes it. -/
inductive PyResult where
  | ret : ℕ → PyResult
  | uncaught : PyResult
deriving DecidableEq

/-- The `edl_file` argument of `cut_video`: the sentinel (`""` or `"none"`)
selecting the no-cut path, or a path whose file is described by `FileRead`. -/
inductive EdlArg where
  | noneGiven : EdlArg
  | given : FileRead → EdlArg
deriving DecidableEq

/-- The environment of one conversion request: the filesystem facts and the
external-engine oracle the run depends on.  `engine c = none` models a
`FileNotFoundError` when spawning command `c`; `engine c = some rc` a
completed run with exit status `rc`. -/
structure Env where
  /-- `os.path.exists(input_file)`. -/
  inputExists : Bool
  /-- The input path as passed to engine commands. -/
  inputPath : String
  /-- `os.path.basename(input_file)`. -/
  inputBasename : String
  /-- The deny-list file (`BLACKLIST_FILE`). -/
  blacklist : FileRead
  /-- The `edl_file` argument and the marker file behind it. -/
  edl : EdlArg
  /-- `os.path.getsize(input_file)`. -/
  fileSizeBytes : ℕ
  /-- Whether the repair pass's output file exists afterwards. -/
  repairOutputExists : Bool
  /-- `os.path.getsize` of the repair pass's output file. -/
  repairOutputSize : ℕ
  /-- The unique temporary path `tempfile.mktemp` gives the working copy. -/
  tempRepairedPath : String
  /-- Python's `float(...)` literal reader. -/
  pyFloat : String → Option ℚ
  /-- The external-engine oracle for `subprocess.run` spawns. -/
  engine : EngCmd → Option ℤ

/-- `is_blacklisted` (lines 40-52): `false` when the deny-list file is absent
or unreadable, otherwise `true` iff some stripped line equals the basename. -/
def is_blacklisted (blacklist : FileRead) (basename : String) : Bool :=
  match blacklist with
  | .absent => false
  | .unreadable => false
  | .content lines => lines.any (fun line => pyStrip line == basename)

/-- `repair_corrupted_file` (lines 71-126): run the error-tolerant stream-copy
pass; on exit `0` with an existing output larger than 1024 bytes, probe it
with `ffprobe`; a probe exit of `0` yields the working-copy path.  Every
failure, including an exception at either spawn (caught by the function's own
`except Exception`), yields `none`. -/
def repair_corrupted_file (env : Env) : Option String × List Event :=
  let c := EngCmd.repairCopy env.inputPath
  match env.engine c with
  | none => (none, [.run c])
  | some rc =>
    if rc = 0 ∧ env.repairOutputExists ∧ 1024 < env.repairOutputSize then
      let v := EngCmd.probe env.tempRepairedPath
      match env.engine v with
      | none => (none, [.run c, .run v])
      | some vrc =>
        if vrc = 0 then (some env.tempRepairedPath, [.run c, .run v])
        else (none, [.run c, .run v])
    else (none, [.run c])

/-- `convert_without_cuts` (lines 284-401): validate the input, short-circuit
on the deny-list with code 9, run the no-cut conversion; on non-zero status
attempt one repair and, when it yields a working copy, retry once against it;
when the final status is still non-zero, append the basename to the deny-list
and return 6.  A `FileNotFoundError` at either conversion spawn is caught and
returns 7. -/
def convert_without_cuts (env : Env) : PyResult × List Event :=
  if ¬ env.inputExists then (.ret 3, [])
  else if is_blacklisted env.blacklist env.inputBasename then (.ret 9, [])
  else
    let c := EngCmd.convert env.inputPath
    match env.engine c with
    | none => (.ret 7, [.run c])
    | some rc =>
      if rc ≠ 0 then
        match repair_corrupted_file env with
        | (some temp, ev1) =>
          let c2 := EngCmd.convert temp
          match env.engine c2 with
          | none => (.ret 7, .run c :: ev1 ++ [.run c2])
          | some rc2 =>
            if rc2 ≠ 0 then
              (.ret 6,
                .run c :: ev1 ++ [.run c2, .blacklistAdd env.inputBasename])
            else (.ret 0, .run c :: ev1 ++ [.run c2])
        | (none, ev1) =>
          (.ret 6, .run c :: ev1 ++ [.blacklistAdd env.inputBasename])
      else (.ret 0, [.run c])

/-- The segment-extraction loop of `cut_video_with_concat_demuxer`
(lines 433-462): extract segments in order; a non-zero status aborts with
code 6, and a spawn failure propagates as an uncaught exception (the function
has no `except FileNotFoundError`; its `try` only carries a cleanup
`finally`).  Returns `none` with the trace when all extractions succeeded. -/
def extract_segments_loop (env : Env) :
    List (ℚ × Option ℚ) → ℕ → Option PyResult × List Event
  | [], _ => (none, [])
  | (s, e) :: rest, i =>
    let c := EngCmd.extract env.inputPath i s e
    match env.engine c with
    | none => (some .uncaught, [.run c])
    | some rc =>
      if rc ≠ 0 then (some (.ret 6), [.run c])
      else
        let r := extract_segments_loop env rest (i + 1)
        (r.1, .run c :: r.2)

/-- `cut_video_with_concat_demuxer` (lines 404-514): extract every segment by
stream copy, then concatenate and re-encode once over the manifest; any
non-zero status returns 6, and a spawn failure escapes uncaught. -/
def cut_video_with_concat_demuxer (env : Env)
    (keepSegments : List (ℚ × Option ℚ)) : PyResult × List Event :=
  match extract_segments_loop env keepSegments 0 with
  | (some r, ev) => (r, ev)
  | (none, ev) =>
    let c := EngCmd.concatRun env.inputPath keepSegments.length
    match env.engine c with
    | none => (.uncaught, ev ++ [.run c])
    | some rc =>
      if rc ≠ 0 then (.ret 6, ev ++ [.run c]) else (.ret 0, ev ++ [.run c])

/-- `cut_video_with_filter_complex` (lines 538-598): one engine invocation
with the trim/concat filter graph; non-zero status returns 6, and a
`FileNotFoundError` at the spawn is caught and returns 7. -/
def cut_video_with_filter_complex (env : Env)
    (keepSegments : List (ℚ × Option ℚ)) : PyResult × List Event :=
  let c := EngCmd.filterRun env.inputPath keepSegments
  match env.engine c with
  | none => (.ret 7, [.run c])
  | some rc =>
    if rc ≠ 0 then (.ret 6, [.run c]) else (.ret 0, [.run c])

/-- `cut_video` (lines 601-678), the conversion entry point: validate the
input (3) and the marker path (4); take the no-cut path when the marker
argument is the sentinel or the marker has no remove-records; otherwise parse
the marker, invert it into keep-segments (returning 5 were they empty), honour
`dry_run` by only surfacing the plan, and dispatch on the selected strategy.
Re-reading an unreadable marker file after a negative no-commercials check
would raise uncaught (that branch is unreachable since the check answers
`true` on any read error). -/
def cut_video (env : Env) (dryRun : Bool) : PyResult × List Event :=
  if ¬ env.inputExists then (.ret 3, [])
  else
    match env.edl with
    | .noneGiven => convert_without_cuts env
    | .given .absent => (.ret 4, [])
    | .given .unreadable =>
      if edl_has_no_commercials .unreadable then convert_without_cuts env
      else (.uncaught, [])
    | .given (.content lines) =>
      if edl_has_no_commercials (.content lines) then convert_without_cuts env
      else
        let cuts := parse_edl_lines env.pyFloat lines
        let keepSegments := keep_segments_from_cuts cuts
        if keepSegments = [] then (.ret 5, [])
        else if dryRun then (.ret 0, [.planPrinted keepSegments.length])
        else
          match choose_strategy env.fileSizeBytes keepSegments.length with
          | .SegmentCopy => cut_video_with_concat_demuxer env keepSegments
          | .FilterGraph => cut_video_with_filter_complex env keepSegments

/-- The engine spawns recorded in a trace, in order. -/
def engineSpawns (tr : List Event) : List EngCmd :=
  tr.filterMap (fun ev =>
    match ev with
    | .run c => some c
    | _ => none)

/-- The deny-list appends recorded in a trace, in order. -/
def blacklistAppends (tr : List Event) : List String :=
  tr.filterMap (fun ev =>
    match ev with
    | .blacklistAdd b => some b
    | _ => none)

/-- A concrete baseline environment for instantiating theorems on sample
runs: input present, nothing deny-listed, no marker argument, an engine that
always exits 0, and a float reader defined on the literals these samples
use. -/
def sampleEnv : Env where
  inputExists := true
  inputPath := "/videos/rec.ts"
  inputBasename := "rec.ts"
  blacklist := .absent
  edl := .noneGiven
  fileSizeBytes := 0
  repairOutputExists := false
  repairOutputSize := 0
  tempRepairedPath := "/tmp/repaired.ts"
  pyFloat := fun s =>
    if s = "10.0" then some 10 else if s = "20.0" then some 20 else none
  engine := fun _ => some 0

/-- Sample: the input's basename is deny-listed while the marker file holds a
remove-record, so the cutting path is selected. -/
def envDenylistedCutting : Env :=
  { sampleEnv with
    blacklist := .content ["rec.ts"]
    edl := .given (.content ["10.0 20.0 0"]) }

/-- Sample: the input's basename is deny-listed and no marker is given, so
the no-cut path is selected. -/
def envDenylistedNoCut : Env :=
  { sampleEnv with blacklist := .content ["rec.ts"] }

/-- Sample: the no-cut conversion fails and the repair pass also fails. -/
def envEngineFailNoRepair : Env :=
  { sampleEnv with
    engine := fun c =>
      match c with
      | .convert _ => some 1
      | .repairCopy _ => some 1
      | _ => some 0 }

/-- Sample: the no-cut conversion fails, the repair pass and probe succeed,
and the retry against the working copy succeeds. -/
def envRepairedRetry : Env :=
  { sampleEnv with
    repairOutputExists := true
    repairOutputSize := 2048
    engine := fun c =>
      match c with
      | .convert p => if p = "/tmp/repaired.ts" then some 0 else some 1
      | _ => some 0 }

/-- Sample: the cutting path selects FilterGraph and the engine fails. -/
def envFilterFail : Env :=
  { sampleEnv with
    edl := .given (.content ["10.0 20.0 0"])
    engine := fun c =>
      match c with
      | .filterRun _ _ => some 1
      | _ => some 0 }

/-- Sample: every engine spawn fails with `FileNotFoundError`. -/
def envSpawnFailNoCut : Env :=
  { sampleEnv with engine := fun _ => none }

/-- Sample: a large input selects SegmentCopy and every spawn fails with
`FileNotFoundError`. -/
def envSpawnFailConcat : Env :=
  { sampleEnv with
    edl := .given (.content ["10.0 20.0 0"])
    fileSizeBytes := 600 * 1048576
    engine := fun _ => none }

/-- Sample: the marker holds a remove-coded line whose time fields are not
parseable as floats. -/
def envMalformedEdl : Env :=
  { sampleEnv with edl := .given (.content ["x y 0"]) }

/-- Sample: the marker file exists but reading it raises an I/O error. -/
def envUnreadableEdl : Env :=
  { sampleEnv with edl := .given .unreadable }

/-! ## Properties of the segment inverter -/

/-- The inverter loop never returns an empty list: the final unbounded segment
is appended on every path. -/
lemma keep_segments_go_ne_nil (cuts : List (ℚ × ℚ × String)) (lastEnd : ℚ) :
    keep_segments_go cuts lastEnd ≠ [] := by
  induction cuts generalizing lastEnd with
  | nil => simp [keep_segments_go]
  | cons c rest ih =>
    obtain ⟨s, e, a⟩ := c
    simp only [keep_segments_go]
    split
    · split
      · simp
      · exact ih e
    · exact ih lastEnd

/-- The last element the inverter loop produces is always unbounded. -/
lemma keep_segments_go_getLast (cuts : List (ℚ × ℚ × String)) (lastEnd : ℚ) :
    ∃ x, (keep_segments_go cuts lastEnd).getLast? = some (x, none) := by
  induction cuts generalizing lastEnd with
  | nil => exact ⟨lastEnd, rfl⟩
  | cons c rest ih =>
    obtain ⟨s, e, a⟩ := c
    simp only [keep_segments_go]
    split
    · split
      · obtain ⟨x, hx⟩ := ih e
        refine ⟨x, ?_⟩
        rcases h : keep_segments_go rest e with _ | ⟨y, ys⟩
        · exact absurd h (keep_segments_go_ne_nil rest e)
        · rw [h] at hx
          rw [List.getLast?_cons_cons]
          exact hx
      · exact ih e
    · exact ih lastEnd

/-- With no remove-records, the inverter loop emits exactly the final
unbounded segment at the current cursor. -/
lemma keep_segments_go_no_removes (cuts : List (ℚ × ℚ × String)) (lastEnd : ℚ)
    (h : removeRecords cuts = []) :
    keep_segments_go cuts lastEnd = [(lastEnd, none)] := by
  induction cuts generalizing lastEnd with
  | nil => rfl
  | cons c rest ih =>
    obtain ⟨s, e, a⟩ := c
    rcases ha : decide (a = "0") with _ | _
    · have ha' : ¬ a = "0" := of_decide_eq_false ha
      have hr : removeRecords rest = [] := by
        simpa [removeRecords, List.filter_cons, ha'] using h
      simp [keep_segments_go, ha', ih lastEnd hr]
    · have ha' : a = "0" := of_decide_eq_true ha
      exfalso
      rw [removeRecords, List.filter_cons, if_pos (by simp [ha'])] at h
      exact List.cons_ne_nil _ _ h

/-- Monotonicity of the inverter loop, under well-formed sorted
non-overlapping remove-records and a cursor below the first remove-record's
start: the emitted segment starts are sorted and bounded below by the
cursor. -/
lemma keep_segments_go_sorted (cuts : List (ℚ × ℚ × String)) (lastEnd : ℚ)
    (hwf : ∀ c ∈ cuts, c.2.2 = "0" → c.1 ≤ c.2.1)
    (hch : List.Chain' (fun p q => p.2.1 ≤ q.1) (removeRecords cuts))
    (hd : ∀ c ∈ (removeRecords cuts).head?, lastEnd ≤ c.1) :
    List.Sorted (· ≤ ·) ((keep_segments_go cuts lastEnd).map Prod.fst) ∧
      ∀ x ∈ (keep_segments_go cuts lastEnd).map Prod.fst, lastEnd ≤ x := by
  induction cuts generalizing lastEnd with
  | nil => simp [keep_segments_go]
  | cons c rest ih =>
    obtain ⟨s, e, a⟩ := c
    have hwf' : ∀ c ∈ rest, c.2.2 = "0" → c.1 ≤ c.2.1 := by
      intro c hc
      exact hwf c (List.mem_cons_of_mem _ hc)
    by_cases ha : a = "0"
    · have hfilter :
          removeRecords ((s, e, a) :: rest) = (s, e, a) :: removeRecords rest := by
        simp [removeRecords, List.filter_cons, ha]
      rw [hfilter] at hch hd
      have hse : s ≤ e := hwf (s, e, a) (List.mem_cons_self _ _) ha
      have hls : lastEnd ≤ s := hd (s, e, a) rfl
      rw [List.chain'_cons'] at hch
      have hd' : ∀ c ∈ (removeRecords rest).head?, e ≤ c.1 := by
        intro c hc
        exact hch.1 c hc
      have ihe := ih e hwf' hch.2 hd'
      simp only [keep_segments_go, ha, if_true]
      by_cases hlt : lastEnd < s
      · have hbound : ∀ x ∈ (keep_segments_go rest e).map Prod.fst, lastEnd ≤ x := by
          intro x hx
          exact le_trans hls (le_trans hse (ihe.2 x hx))
        refine ⟨?_, ?_⟩
        · simp only [hlt, if_true, List.map_cons]
          rw [List.sorted_cons]
          exact ⟨hbound, ihe.1⟩
        · intro x hx
          simp only [hlt, if_true, List.map_cons, List.mem_cons] at hx
          rcases hx with rfl | hx
          · exact le_refl x
          · exact hbound x hx
      · have hle : s = lastEnd := le_antisymm (not_lt.mp hlt) hls
        simp only [hlt, if_false]
        refine ⟨ihe.1, ?_⟩
        intro x hx
        calc lastEnd = s := hle.symm
          _ ≤ e := hse
          _ ≤ x := ihe.2 x hx
    · have hfilter : removeRecords ((s, e, a) :: rest) = removeRecords rest := by
        simp [removeRecords, List.filter_cons, ha]
      rw [hfilter] at hch hd
      simp only [keep_segments_go, ha, if_false]
      exact ih lastEnd hwf' hch hd

/-- C1 (amended): for every list of parsed cut records, the keep-segment list
is non-empty, its last segment's end is unbounded, and an input with zero
remove-records yields exactly `[(0, unbounded)]`; the segment starts are
non-decreasing provided the remove-records are well formed
(`0 ≤ start ≤ end`) and sorted non-overlapping (each remove-record's end is at
most the next remove-record's start). -/
theorem keep_segments_invariants (cuts : List (ℚ × ℚ × String))
    (hwf : ∀ c ∈ cuts, c.2.2 = "0" → 0 ≤ c.1 ∧ c.1 ≤ c.2.1)
    (hch : List.Chain' (fun p q => p.2.1 ≤ q.1) (removeRecords cuts)) :
    keep_segments_from_cuts cuts ≠ [] ∧
      List.Sorted (· ≤ ·) ((keep_segments_from_cuts cuts).map Prod.fst) ∧
      (∃ x, (keep_segments_from_cuts cuts).getLast? = some (x, none)) ∧
      (removeRecords cuts = [] → keep_segments_from_cuts cuts = [(0, none)]) := by
  refine ⟨keep_segments_go_ne_nil cuts 0, ?_, keep_segments_go_getLast cuts 0,
    fun h => keep_segments_go_no_removes cuts 0 h⟩
  have hd : ∀ c ∈ (removeRecords cuts).head?, (0 : ℚ) ≤ c.1 := by
    intro c hc
    have hmem : c ∈ removeRecords cuts := by
      rcases hh : (removeRecords cuts).head? with _ | ⟨d⟩
      · rw [hh] at hc
        exact absurd hc (by simp)
      · rw [hh] at hc
        simp only [Option.mem_def, Option.some.injEq] at hc
        subst hc
        exact List.mem_of_mem_head? hh
    rw [removeRecords, List.mem_filter] at hmem
    exact (hwf c hmem.1 (of_decide_eq_true hmem.2)).1
  exact (keep_segments_go_sorted cuts 0
    (fun c hc h0 => (hwf c hc h0).2) hch hd).1

/-- C1 counterexample: on out-of-order remove-records the segment starts are
not non-decreasing — the claim's monotonicity does not hold for every list of
parsed cut records. -/
theorem keep_segments_starts_not_monotone_cex :
    ¬ List.Sorted (· ≤ ·)
      ((keep_segments_from_cuts
        [((10 : ℚ), (20 : ℚ), "0"), (30, 5, "0"), (25, 40, "0")]).map
        Prod.fst) := by
  decide

/-- Witness for `keep_segments_invariants` at the two-commercial marker
`[(10,20,remove), (40,50,remove)]`. -/
theorem keep_segments_invariants_witness :
    keep_segments_from_cuts [((10 : ℚ), (20 : ℚ), "0"), (40, 50, "0")] ≠ [] ∧
      List.Sorted (· ≤ ·)
        ((keep_segments_from_cuts
          [((10 : ℚ), (20 : ℚ), "0"), (40, 50, "0")]).map Prod.fst) := by
  have hch : List.Chain' (fun (p q : ℚ × ℚ × String) => p.2.1 ≤ q.1)
      (removeRecords [((10 : ℚ), (20 : ℚ), "0"), (40, 50, "0")]) := by
    rw [show removeRecords [((10 : ℚ), (20 : ℚ), "0"), (40, 50, "0")] =
      [((10 : ℚ), (20 : ℚ), "0"), (40, 50, "0")] from by decide]
    rw [List.chain'_cons]
    exact ⟨by norm_num, List.chain'_singleton _⟩
  exact ⟨(keep_segments_invariants _ (by decide) hch).1,
    (keep_segments_invariants _ (by decide) hch).2.1⟩

/-! ## Strategy selection -/

/-- The float comparison `500 < size / (1024*1024)` of the selector, restated
over the byte count. -/
lemma mb_lt_500 (n : ℕ) : ((500 : ℚ) < (n : ℚ) / (1024 * 1024)) ↔ 524288000 < n := by
  rw [lt_div_iff₀ (by norm_num : (0 : ℚ) < 1024 * 1024),
    show (500 : ℚ) * (1024 * 1024) = ((524288000 : ℕ) : ℚ) by norm_num]
  exact_mod_cast Iff.rfl

/-- The float comparison `200 < size / (1024*1024)` of the selector, restated
over the byte count. -/
lemma mb_lt_200 (n : ℕ) : ((200 : ℚ) < (n : ℚ) / (1024 * 1024)) ↔ 209715200 < n := by
  rw [lt_div_iff₀ (by norm_num : (0 : ℚ) < 1024 * 1024),
    show (200 : ℚ) * (1024 * 1024) = ((209715200 : ℕ) : ℚ) by norm_num]
  exact_mod_cast Iff.rfl

/-- The selector restated without float arithmetic (used to evaluate concrete
runs, since the rational division does not reduce inside the kernel). -/
lemma choose_strategy_eq (sizeBytes numSegments : ℕ) :
    choose_strategy sizeBytes numSegments =
      if 5 < numSegments ∨ 524288000 < sizeBytes ∨
          (209715200 < sizeBytes ∧ 3 < numSegments)
      then .SegmentCopy else .FilterGraph := by
  unfold choose_strategy
  exact if_congr (by rw [mb_lt_500, mb_lt_200]) rfl rfl

/-- C2 (confirmed): strategy selection is a pure function of file size and
segment count; SegmentCopy is chosen exactly when `segment_count > 5`, or
`file_size > 500MiB`, or (`file_size > 200MiB` and `segment_count > 3`);
otherwise FilterGraph — and the four concrete instances of the claim hold
(sizes read in the selector's own unit, MiB). -/
theorem choose_strategy_spec :
    (∀ sizeBytes numSegments : ℕ,
      choose_strategy sizeBytes numSegments = .SegmentCopy ↔
        (5 < numSegments ∨ 500 * 1048576 < sizeBytes ∨
          (200 * 1048576 < sizeBytes ∧ 3 < numSegments))) ∧
      choose_strategy (10 * 1048576) 6 = .SegmentCopy ∧
      choose_strategy (600 * 1048576) 2 = .SegmentCopy ∧
      choose_strategy (250 * 1048576) 4 = .SegmentCopy ∧
      choose_strategy (10 * 1048576) 2 = .FilterGraph := by
  have key : ∀ sizeBytes numSegments : ℕ,
      choose_strategy sizeBytes numSegments = .SegmentCopy ↔
        (5 < numSegments ∨ 500 * 1048576 < sizeBytes ∨
          (200 * 1048576 < sizeBytes ∧ 3 < numSegments)) := by
    intro sz n
    rw [choose_strategy_eq]
    constructor
    · intro h
      by_contra hc
      rw [if_neg (by omega)] at h
      exact Strategy.noConfusion h
    · intro h
      rw [if_pos (by omega)]
  refine ⟨key, (key _ _).mpr (by omega), (key _ _).mpr (by omega),
    (key _ _).mpr (by omega), ?_⟩
  rw [choose_strategy_eq, if_neg (by omega)]

/-! ## The plain-text metadata reader -/

/-- Once the reader is in description-capture mode, the rest of the file is
appended verbatim, line by line, and the metadata fields are never touched
again. -/
lemma parse_txt_capture_mode (m : PyMeta) (ds : List String)
    (rest : List String) :
    rest.foldl parse_txt_step (m, ds, true) = (m, ds ++ rest, true) := by
  induction rest generalizing ds with
  | nil => simp
  | cons r rs ih =>
    rw [List.foldl_cons]
    show List.foldl parse_txt_step (m, ds ++ [r], true) rs = _
    rw [ih]
    simp

/-- C7 (amended): a `Description:` key switches the reader into multi-line
capture: every subsequent line, including blank lines and lines that look
like `key: value` pairs, is appended verbatim until end of file, no key
parsing resumes, and the description field is the captured lines joined by
line breaks and trimmed of leading and trailing whitespace (the source
applies Python `str.strip()`, not a trailing-only trim). -/
theorem parse_txt_description_capture (rest : List String) (hne : rest ≠ []) :
    parse_txt_metadata ("Description:" :: rest) =
      { channel := none, date := none, recording := none,
        description := some (pyStrip (joinLines rest)) } := by
  unfold parse_txt_metadata
  rw [List.foldl_cons,
    show parse_txt_step ({}, [], false) "Description:" =
      (({} : PyMeta), ([] : List String), true) from by decide,
    parse_txt_capture_mode]
  simp [hne]

/-- C7 counterexample: with a leading space on a captured line, the computed
description is not the captured lines joined and trimmed of trailing
whitespace only — the source also strips leading whitespace. -/
theorem parse_txt_trailing_trim_cex :
    (parse_txt_metadata ["Description:", " a", "b"]).description ≠
      some (rstripWS (joinLines [" a", "b"])) := by
  decide

/-- Witness for `parse_txt_description_capture`: a `Description:` line
followed by two lines yields the two lines joined by a line break. -/
theorem parse_txt_description_capture_witness :
    parse_txt_metadata ["Description:", "line one", "line two"] =
      { channel := none, date := none, recording := none,
        description := some "line one\nline two" } := by
  rw [parse_txt_description_capture ["line one", "line two"] (by decide)]
  decide

/-! ## Paths through the conversion entry point -/

/-- When the marker argument is the sentinel, or the marker file exists and
the no-commercials check answers `true`, `cut_video` is exactly the no-cut
conversion. -/
lemma cut_video_no_cut_path (env : Env) (dr : Bool)
    (hin : env.inputExists = true)
    (h : env.edl = .noneGiven ∨
      ∃ f, env.edl = .given f ∧ f ≠ .absent ∧
        edl_has_no_commercials f = true) :
    cut_video env dr = convert_without_cuts env := by
  unfold cut_video
  rcases h with h | ⟨f, hf, hne, hq⟩
  · rw [h]
    simp [hin]
  · rw [hf]
    cases f with
    | absent => exact absurd rfl hne
    | unreadable => simp [hin, hq]
    | content lines => simp [hin, hq]

/-- On a readable marker whose no-commercials check answers `false`,
`cut_video` parses the marker, inverts it, and dispatches on the selected
strategy. -/
lemma cut_video_cutting_path (env : Env) (dr : Bool) (lines : List String)
    (hin : env.inputExists = true)
    (hedl : env.edl = .given (.content lines))
    (hhc : edl_has_no_commercials (.content lines) = false) :
    cut_video env dr =
      (if keep_segments_from_cuts (parse_edl_lines env.pyFloat lines) = []
      then (.ret 5, [])
      else if dr then
        (.ret 0, [.planPrinted
          (keep_segments_from_cuts (parse_edl_lines env.pyFloat lines)).length])
      else
        match choose_strategy env.fileSizeBytes
            (keep_segments_from_cuts (parse_edl_lines env.pyFloat lines)).length
          with
        | .SegmentCopy =>
          cut_video_with_concat_demuxer env
            (keep_segments_from_cuts (parse_edl_lines env.pyFloat lines))
        | .FilterGraph =>
          cut_video_with_filter_complex env
            (keep_segments_from_cuts (parse_edl_lines env.pyFloat lines))) := by
  unfold cut_video
  rw [hedl]
  simp [hin, hhc]

/-- The segment inverter never returns an empty list. -/
lemma keep_segments_from_cuts_ne_nil (cuts : List (ℚ × ℚ × String)) :
    keep_segments_from_cuts cuts ≠ [] :=
  keep_segments_go_ne_nil cuts 0

/-- The no-cut conversion never returns result code 5. -/
lemma convert_without_cuts_not_five (env : Env) :
    (convert_without_cuts env).1 ≠ .ret 5 := by
  by_cases h1 : env.inputExists = true
  case neg => simp [convert_without_cuts, h1]
  by_cases h2 : is_blacklisted env.blacklist env.inputBasename = true
  · simp [convert_without_cuts, h1, h2]
  · rcases h : env.engine (EngCmd.convert env.inputPath) with _ | rc
    · simp [convert_without_cuts, h1, h2, h]
    · rcases hrep : repair_corrupted_file env with ⟨ropt, ev1⟩
      by_cases hrc : rc = 0
      · simp [convert_without_cuts, h1, h2, h, hrc]
      · rcases ropt with _ | temp
        · simp [convert_without_cuts, h1, h2, h, hrc, hrep]
        · rcases h3 : env.engine (EngCmd.convert temp) with _ | rc2
          · simp [convert_without_cuts, h1, h2, h, hrc, hrep, h3]
          · by_cases hrc2 : rc2 = 0 <;>
              simp [convert_without_cuts, h1, h2, h, hrc, hrep, h3, hrc2]

/-- The extraction loop never aborts with result code 5. -/
lemma extract_segments_loop_not_five (env : Env)
    (segs : List (ℚ × Option ℚ)) (i : ℕ) :
    (extract_segments_loop env segs i).1 ≠ some (.ret 5) := by
  induction segs generalizing i with
  | nil => simp [extract_segments_loop]
  | cons s rest ih =>
    obtain ⟨st, en⟩ := s
    unfold extract_segments_loop
    rcases h : env.engine (EngCmd.extract env.inputPath i st en) with _ | rc
    · simp [h]
    · by_cases hrc : rc ≠ 0
      · simp [h, hrc]
      · simpa [h, hrc] using ih (i + 1)

/-- The SegmentCopy strategy never returns result code 5. -/
lemma cut_video_with_concat_demuxer_not_five (env : Env)
    (segs : List (ℚ × Option ℚ)) :
    (cut_video_with_concat_demuxer env segs).1 ≠ .ret 5 := by
  unfold cut_video_with_concat_demuxer
  rcases h : extract_segments_loop env segs 0 with ⟨r, ev⟩
  rcases r with _ | r
  · rcases h2 : env.engine (EngCmd.concatRun env.inputPath segs.length) with _ | rc
    · simp [h2]
    · by_cases hrc : rc ≠ 0 <;> simp [h2, hrc]
  · have hne := extract_segments_loop_not_five env segs 0
    rw [h] at hne
    simpa using hne

/-- The FilterGraph strategy never returns result code 5. -/
lemma cut_video_with_filter_complex_not_five (env : Env)
    (segs : List (ℚ × Option ℚ)) :
    (cut_video_with_filter_complex env segs).1 ≠ .ret 5 := by
  unfold cut_video_with_filter_complex
  rcases h : env.engine (EngCmd.filterRun env.inputPath segs) with _ | rc
  · simp [h]
  · by_cases hrc : rc ≠ 0 <;> simp [h, hrc]

/-- C8 (confirmed): the segment inverter always appends the final unbounded
segment, so its result is never empty and the branch of `cut_video` that
would return result code 5 on an empty keep-segment list is unreachable:
`cut_video` never returns 5. -/
theorem cut_video_never_code_5 :
    (∀ cuts, keep_segments_from_cuts cuts ≠ []) ∧
      ∀ (env : Env) (dr : Bool), (cut_video env dr).1 ≠ .ret 5 := by
  refine ⟨fun cuts => keep_segments_go_ne_nil cuts 0, ?_⟩
  intro env dr
  by_cases hin : env.inputExists = true
  · cases hedl : env.edl with
    | noneGiven =>
      rw [cut_video_no_cut_path env dr hin (Or.inl hedl)]
      exact convert_without_cuts_not_five env
    | given f =>
      cases f with
      | absent =>
        unfold cut_video
        rw [hedl]
        simp [hin]
      | unreadable =>
        rw [cut_video_no_cut_path env dr hin
          (Or.inr ⟨.unreadable, hedl, by simp, rfl⟩)]
        exact convert_without_cuts_not_five env
      | content lines =>
        rcases hq : edl_has_no_commercials (.content lines) with _ | _
        · rw [cut_video_cutting_path env dr lines hin hedl hq]
          rw [if_neg (keep_segments_from_cuts_ne_nil _)]
          split
          · simp
          · split
            · exact cut_video_with_concat_demuxer_not_five env _
            · exact cut_video_with_filter_complex_not_five env _
        · rw [cut_video_no_cut_path env dr hin
            (Or.inr ⟨.content lines, hedl, by simp, hq⟩)]
          exact convert_without_cuts_not_five env
  · unfold cut_video
    simp [hin]

/-- C10 (confirmed): when the marker file exists but reading it raises an
I/O error, the no-commercials check answers `true` and the conversion
proceeds on the no-cut path (it is exactly the no-cut conversion, no error
result code of its own). -/
theorem unreadable_edl_no_cut (env : Env) (dr : Bool)
    (hin : env.inputExists = true)
    (hedl : env.edl = .given .unreadable) :
    edl_has_no_commercials .unreadable = true ∧
      cut_video env dr = convert_without_cuts env :=
  ⟨rfl, cut_video_no_cut_path env dr hin
    (Or.inr ⟨.unreadable, hedl, by simp, rfl⟩)⟩

/-- Witness for `unreadable_edl_no_cut`: with an unreadable marker and a
healthy engine, the run is the (successful) no-cut conversion. -/
theorem unreadable_edl_no_cut_witness :
    cut_video envUnreadableEdl false = convert_without_cuts envUnreadableEdl ∧
      cut_video envUnreadableEdl false =
        (.ret 0, [.run (.convert "/videos/rec.ts")]) := by
  have h := (unreadable_edl_no_cut envUnreadableEdl false (by decide) rfl).2
  exact ⟨h, by rw [h]; decide⟩

/-- C5 (amended): the dry-run flag suppresses engine invocation only on the
cutting path, where the run returns 0 and surfaces the segment count;
on the no-cut path (marker sentinel given here) the flag is ignored and the
run is the ordinary no-cut conversion, which does invoke the engine. -/
theorem dry_run_cutting_path_only :
    (∀ (env : Env) (lines : List String),
      env.inputExists = true →
      env.edl = .given (.content lines) →
      edl_has_no_commercials (.content lines) = false →
      cut_video env true =
        (.ret 0, [.planPrinted
          (keep_segments_from_cuts (parse_edl_lines env.pyFloat lines)).length])) ∧
      ∀ (env : Env) (dr : Bool),
        env.inputExists = true → env.edl = .noneGiven →
        cut_video env dr = convert_without_cuts env := by
  constructor
  · intro env lines hin hedl hhc
    rw [cut_video_cutting_path env true lines hin hedl hhc]
    rw [if_neg (keep_segments_from_cuts_ne_nil _)]
    simp
  · intro env dr hin hedl
    exact cut_video_no_cut_path env dr hin (Or.inl hedl)

/-- C5 counterexample: with the dry-run flag set and no marker given, the
engine is nevertheless spawned (the dry-run check sits after the no-cut
branch, which never sees the flag). -/
theorem dry_run_no_cut_spawns_cex :
    engineSpawns (cut_video sampleEnv true).2 ≠ [] := by
  decide

/-- Witness for `dry_run_cutting_path_only`: a dry run over a marker with one
remove-record surfaces the two keep-segments and exits 0 with no spawn. -/
theorem dry_run_cutting_path_only_witness :
    cut_video envFilterFail true = (.ret 0, [.planPrinted 2]) := by
  have h := dry_run_cutting_path_only.1 envFilterFail ["10.0 20.0 0"]
    (by decide) (by decide) (by decide)
  rw [h]
  decide

/-- C3 (amended): a deny-listed input (input present) short-circuits to the
blacklisted result code 9 with no engine spawn, but only on the no-cut path —
marker sentinel, or a marker that exists and has no remove-records; the
cutting paths never consult the deny-list. -/
theorem denylist_short_circuit (env : Env) (dr : Bool)
    (hin : env.inputExists = true)
    (hbl : is_blacklisted env.blacklist env.inputBasename = true)
    (hpath : env.edl = .noneGiven ∨
      ∃ f, env.edl = .given f ∧ f ≠ .absent ∧
        edl_has_no_commercials f = true) :
    cut_video env dr = (.ret 9, []) := by
  rw [cut_video_no_cut_path env dr hin hpath]
  simp [convert_without_cuts, hin, hbl]

/-- Witness for `denylist_short_circuit`: deny-listed input, no marker
given. -/
theorem denylist_short_circuit_witness :
    cut_video envDenylistedNoCut false = (.ret 9, []) :=
  denylist_short_circuit envDenylistedNoCut false (by decide) (by decide)
    (Or.inl (by decide))

/-- C3 counterexample: a deny-listed input whose marker holds a remove-record
takes the cutting path — the result is not the blacklist code 9 and the
engine is spawned, so the deny-list check does not happen at the very start
of every conversion request. -/
theorem denylist_cutting_path_cex :
    is_blacklisted envDenylistedCutting.blacklist
        envDenylistedCutting.inputBasename = true ∧
      (cut_video envDenylistedCutting false).1 ≠ .ret 9 ∧
      engineSpawns (cut_video envDenylistedCutting false).2 ≠ [] := by
  have hrun : cut_video envDenylistedCutting false =
      cut_video_with_filter_complex envDenylistedCutting
        [(0, some 10), (20, none)] := by
    rw [cut_video_cutting_path envDenylistedCutting false ["10.0 20.0 0"]
      (by decide) (by decide) (by decide),
      show keep_segments_from_cuts
          (parse_edl_lines envDenylistedCutting.pyFloat ["10.0 20.0 0"]) =
        [(0, some 10), (20, none)] from by decide,
      choose_strategy_eq]
    decide
  refine ⟨by decide, ?_, ?_⟩ <;> rw [hrun] <;> decide

/-- C9 (confirmed): a marker line whose third field is the remove code but
whose time fields are not numeric makes the no-commercials check answer
`false` while the parser drops the line, so the cutting path runs with the
single keep-segment `(0, unbounded)` instead of taking the no-cut path
(a small input selects FilterGraph). -/
theorem malformed_remove_line_cuts_everything (env : Env)
    (hin : env.inputExists = true)
    (hedl : env.edl = .given (.content ["x y 0"]))
    (hpf : env.pyFloat "x" = none)
    (hsz : env.fileSizeBytes ≤ 209715200) :
    edl_has_no_commercials (.content ["x y 0"]) = false ∧
      parse_edl_lines env.pyFloat ["x y 0"] = [] ∧
      keep_segments_from_cuts (parse_edl_lines env.pyFloat ["x y 0"]) =
        [(0, none)] ∧
      cut_video env false =
        cut_video_with_filter_complex env [(0, none)] := by
  have hparse : parse_edl_lines env.pyFloat ["x y 0"] = [] := by
    simp only [parse_edl_lines, List.filterMap_cons, List.filterMap_nil,
      show pyStrip "x y 0" = "x y 0" from by decide,
      show startsWithChar '#' "x y 0" = false from by decide,
      show pySplitWS "x y 0" = ["x", "y", "0"] from by decide]
    simp [hpf]
  refine ⟨rfl, hparse, by rw [hparse]; rfl, ?_⟩
  rw [cut_video_cutting_path env false ["x y 0"] hin hedl rfl, hparse,
    show keep_segments_from_cuts ([] : List (ℚ × ℚ × String)) =
      [((0 : ℚ), (none : Option ℚ))] from rfl,
    if_neg (show ¬([((0 : ℚ), (none : Option ℚ))] = []) from by simp),
    if_neg (show ¬(false = true) from by simp),
    choose_strategy_eq,
    show ([((0 : ℚ), (none : Option ℚ))]).length = 1 from rfl,
    if_neg (show ¬(5 < 1 ∨ 524288000 < env.fileSizeBytes ∨
      (209715200 < env.fileSizeBytes ∧ 3 < 1)) from by omega)]

/-- Witness for `malformed_remove_line_cuts_everything`: the sample run ends
as a successful FilterGraph pass over the whole stream. -/
theorem malformed_remove_line_witness :
    cut_video envMalformedEdl false =
      cut_video_with_filter_complex envMalformedEdl [(0, none)] ∧
      (cut_video envMalformedEdl false).1 = .ret 0 := by
  have h := (malformed_remove_line_cuts_everything envMalformedEdl
    (by decide) (by decide) (by decide) (by decide)).2.2.2
  exact ⟨h, by rw [h]; decide⟩

/-- The repair pass records only engine spawns: it never appends to the
deny-list itself. -/
lemma repair_trace_no_appends (env : Env) :
    blacklistAppends (repair_corrupted_file env).2 = [] := by
  rcases h : env.engine (EngCmd.repairCopy env.inputPath) with _ | rc
  · simp [repair_corrupted_file, h, blacklistAppends]
  · by_cases hc : rc = 0 ∧ env.repairOutputExists = true ∧
        1024 < env.repairOutputSize
    · rcases h2 : env.engine (EngCmd.probe env.tempRepairedPath) with _ | vrc
      · simp [repair_corrupted_file, h, hc, h2, blacklistAppends]
      · by_cases hv : vrc = 0 <;>
          simp [repair_corrupted_file, h, hc, h2, hv, blacklistAppends]
    · simp [repair_corrupted_file, h, hc, blacklistAppends]

/-- C4 (amended): corruption recovery lives only on the no-cut path: there, a
non-zero engine status triggers one repair pass, a retry against the working
copy when the repair verifies (a clean retry ends with success), and a
deny-list append with failure code 6 when the repair fails; the SegmentCopy
and FilterGraph strategies return 6 directly on non-zero status — their whole
trace is the one failing spawn, so no repair runs and nothing is
deny-listed. -/
theorem corruption_recovery_no_cut_only :
    (∀ env : Env, env.inputExists = true →
      is_blacklisted env.blacklist env.inputBasename = false →
      ∀ rc : ℤ, env.engine (.convert env.inputPath) = some rc → rc ≠ 0 →
      (repair_corrupted_file env).1 = none →
      (convert_without_cuts env).1 = .ret 6 ∧
        blacklistAppends (convert_without_cuts env).2 = [env.inputBasename]) ∧
      (∀ env : Env, env.inputExists = true →
        is_blacklisted env.blacklist env.inputBasename = false →
        ∀ rc : ℤ, env.engine (.convert env.inputPath) = some rc → rc ≠ 0 →
        ∀ temp, (repair_corrupted_file env).1 = some temp →
        env.engine (.convert temp) = some 0 →
        (convert_without_cuts env).1 = .ret 0) ∧
      (∀ (env : Env) (segs : List (ℚ × Option ℚ)) (rc : ℤ),
        env.engine (.filterRun env.inputPath segs) = some rc → rc ≠ 0 →
        cut_video_with_filter_complex env segs =
          (.ret 6, [.run (.filterRun env.inputPath segs)])) ∧
      ∀ (env : Env) (s : ℚ) (e : Option ℚ) (rest : List (ℚ × Option ℚ))
        (rc : ℤ),
        env.engine (.extract env.inputPath 0 s e) = some rc → rc ≠ 0 →
        cut_video_with_concat_demuxer env ((s, e) :: rest) =
          (.ret 6, [.run (.extract env.inputPath 0 s e)]) := by
  refine ⟨?_, ?_, ?_, ?_⟩
  · intro env hin hbl rc h hrc hrep
    rcases hrp : repair_corrupted_file env with ⟨ropt, ev1⟩
    rw [hrp] at hrep
    simp only at hrep
    subst hrep
    have hap := repair_trace_no_appends env
    rw [hrp] at hap
    simp only at hap
    have hconv : convert_without_cuts env =
        (.ret 6, .run (EngCmd.convert env.inputPath) ::
          (ev1 ++ [.blacklistAdd env.inputBasename])) := by
      simp [convert_without_cuts, hin, hbl, h, hrc, hrp]
    rw [hconv]
    refine ⟨rfl, ?_⟩
    simp [blacklistAppends, List.filterMap_append] at hap ⊢
    exact hap
  · intro env hin hbl rc h hrc temp hrep hretry
    rcases hrp : repair_corrupted_file env with ⟨ropt, ev1⟩
    rw [hrp] at hrep
    simp only at hrep
    subst hrep
    simp [convert_without_cuts, hin, hbl, h, hrc, hrp, hretry]
  · intro env segs rc h hrc
    simp [cut_video_with_filter_complex, h, hrc]
  · intro env s e rest rc h hrc
    have hloop : extract_segments_loop env ((s, e) :: rest) 0 =
        (some (.ret 6), [.run (.extract env.inputPath 0 s e)]) := by
      simp [extract_segments_loop, h, hrc]
    simp [cut_video_with_concat_demuxer, hloop]

/-- Witness for `corruption_recovery_no_cut_only`: on the no-cut path a
failed conversion with a failed repair ends with code 6 and exactly one
deny-list append; a failed FilterGraph run ends with code 6 and a trace of
just the failing spawn. -/
theorem corruption_recovery_witness :
    ((convert_without_cuts envEngineFailNoRepair).1 = .ret 6 ∧
      blacklistAppends (convert_without_cuts envEngineFailNoRepair).2 =
        ["rec.ts"]) ∧
      cut_video_with_filter_complex envFilterFail [(0, some 10), (20, none)] =
        (.ret 6,
          [.run (.filterRun "/videos/rec.ts" [(0, some 10), (20, none)])]) := by
  constructor
  · have h := corruption_recovery_no_cut_only.1 envEngineFailNoRepair
      (by decide) (by decide) 1 (by decide) (by decide) (by decide)
    refine ⟨h.1, ?_⟩
    rw [h.2]
    decide
  · have h := corruption_recovery_no_cut_only.2.2.1 envFilterFail
      [(0, some 10), (20, none)] 1 (by decide) (by decide)
    rw [h]
    decide

/-- C4 counterexample: on the FilterGraph cutting path a non-zero engine
status does not reach corruption recovery — the run returns 6 with a trace of
exactly the one failing spawn: no repair pass, no deny-list append. -/
theorem corruption_recovery_cutting_cex :
    (cut_video envFilterFail false).1 = .ret 6 ∧
      blacklistAppends (cut_video envFilterFail false).2 = [] ∧
      ∀ p, Event.run (.repairCopy p) ∉ (cut_video envFilterFail false).2 := by
  have hrun : cut_video envFilterFail false =
      (.ret 6,
        [.run (.filterRun "/videos/rec.ts" [(0, some 10), (20, none)])]) := by
    rw [cut_video_cutting_path envFilterFail false ["10.0 20.0 0"]
      (by decide) (by decide) (by decide),
      show keep_segments_from_cuts
          (parse_edl_lines envFilterFail.pyFloat ["10.0 20.0 0"]) =
        [(0, some 10), (20, none)] from by decide,
      choose_strategy_eq]
    decide
  rw [hrun]
  refine ⟨rfl, rfl, fun p => ?_⟩
  simp

/-- C6 (amended): a spawn failure of the engine executable yields result
code 7 on the no-cut path and on the FilterGraph path; on the SegmentCopy
path the `FileNotFoundError` is not caught and escapes as an uncaught
exception instead. -/
theorem engine_unavailable_code_7 :
    (∀ env : Env, env.inputExists = true →
      is_blacklisted env.blacklist env.inputBasename = false →
      env.engine (.convert env.inputPath) = none →
      convert_without_cuts env = (.ret 7, [.run (.convert env.inputPath)])) ∧
      (∀ (env : Env) (segs : List (ℚ × Option ℚ)),
        env.engine (.filterRun env.inputPath segs) = none →
        cut_video_with_filter_complex env segs =
          (.ret 7, [.run (.filterRun env.inputPath segs)])) ∧
      ∀ (env : Env) (s : ℚ) (e : Option ℚ) (rest : List (ℚ × Option ℚ)),
        env.engine (.extract env.inputPath 0 s e) = none →
        cut_video_with_concat_demuxer env ((s, e) :: rest) =
          (.uncaught, [.run (.extract env.inputPath 0 s e)]) := by
  refine ⟨?_, ?_, ?_⟩
  · intro env hin hbl h
    simp [convert_without_cuts, hin, hbl, h]
  · intro env segs h
    simp [cut_video_with_filter_complex, h]
  · intro env s e rest h
    have hloop : extract_segments_loop env ((s, e) :: rest) 0 =
        (some .uncaught, [.run (.extract env.inputPath 0 s e)]) := by
      simp [extract_segments_loop, h]
    simp [cut_video_with_concat_demuxer, hloop]

/-- Witness for `engine_unavailable_code_7` with every spawn failing. -/
theorem engine_unavailable_code_7_witness :
    convert_without_cuts envSpawnFailNoCut =
      (.ret 7, [.run (.convert "/videos/rec.ts")]) ∧
      cut_video_with_filter_complex envSpawnFailNoCut [(0, none)] =
        (.ret 7, [.run (.filterRun "/videos/rec.ts" [(0, none)])]) ∧
      cut_video_with_concat_demuxer envSpawnFailNoCut [(0, none)] =
        (.uncaught, [.run (.extract "/videos/rec.ts" 0 0 none)]) := by
  refine ⟨?_, ?_, ?_⟩
  · rw [engine_unavailable_code_7.1 envSpawnFailNoCut (by decide) (by decide)
      (by decide)]
    decide
  · rw [engine_unavailable_code_7.2.1 envSpawnFailNoCut [(0, none)] (by decide)]
    decide
  · rw [engine_unavailable_code_7.2.2 envSpawnFailNoCut 0 none [] (by decide)]
    decide

/-- C6 counterexample: a large input selects SegmentCopy; with the engine
executable unavailable the run ends as an uncaught exception, not result
code 7. -/
theorem engine_unavailable_concat_cex :
    (cut_video envSpawnFailConcat false).1 = .uncaught ∧
      (cut_video envSpawnFailConcat false).1 ≠ .ret 7 := by
  have hrun : cut_video envSpawnFailConcat false =
      (.uncaught, [.run (.extract "/videos/rec.ts" 0 0 (some 10))]) := by
    rw [cut_video_cutting_path envSpawnFailConcat false ["10.0 20.0 0"]
      (by decide) (by decide) (by decide),
      show keep_segments_from_cuts
          (parse_edl_lines envSpawnFailConcat.pyFloat ["10.0 20.0 0"]) =
        [(0, some 10), (20, none)] from by decide,
      choose_strategy_eq]
    decide
  rw [hrun]
  exact ⟨rfl, by decide⟩

end AutoComskip
